import Mathlib

set_option linter.unusedVariables false

namespace Morloc

/-! # Shallow embedding of the morloc frontend table / Ws layer

Embeds `src/frontend/table.c`, `src/frontend/ws_access.c` and the
declarations of `src/frontend/hof.h`.

Conventions used throughout:
* A C `Table*` is modelled as `List Entry`; a NULL table and a non-NULL
  table whose head is NULL both flatten to the empty list `[]`.
* `exit(EXIT_FAILURE)` is modelled by `Res.fatal`; messages written to
  stderr after which execution continues are collected in order as the
  `diags` component of `Res.ok`.
* `entry_isolate` / `w_isolate` produce a private copy of a node's
  contents (severing the intrusive `next` link); on the pure value model
  they are the identity on the carried data.
* Reading a union arm that the entry's constructor does not carry
  (undefined behaviour in C, always guarded by type tests in the code)
  is modelled by the accessor's default value (`[]`, `""`).
-/

/-- Class tags for tree nodes and table entries, as used in
`table.c` / `ws_access.c` (the defining lexicon header is not part of
the sample; the constructor names are exactly the tags the two C files
use).  The C macro `STCMP` also tests that the type tag is a nonzero
enum value; no tag modelled here plays the role of the zero value. -/
inductive TType where
  | T_PATH | T_TYPE
  | C_COMPOSON | C_NEST | C_DEREF | C_MANIFOLD | C_POSITIONAL | C_GRPREF
  | K_LIST | K_PATH | K_LABEL | K_NAME
  | P_WS
deriving DecidableEq, Repr

/-- Modelled from the spec: an `Id` is a nullable/anonymous identifier
carried by a table entry; `table.c` reads its `name` field
(`e->id->name`), which may itself be NULL. -/
structure Id where
  name : Option String
deriving DecidableEq, Repr

/-- Modelled from the spec: `id_cmp` (declared in the missing table
header) compares two identifiers; identifiers are names, so the
comparison is name equality. -/
def id_cmp (a b : Id) : Bool :=
  a.name == b.name

/-- `id_clone` produces an independent copy of a (nullable) identifier;
on values this is the identity. -/
def id_clone (i : Option Id) : Option Id := i

/-- Modelled from the spec: the manifold payload is an opaque,
externally-defined descriptor; only its identity matters here. -/
def Manifold : Type := Nat

instance : DecidableEq Manifold := instDecidableEqNat

instance : Repr Manifold := instReprNat

/-- Modelled from the spec: `manifold_new()` allocates a fresh empty
manifold payload. -/
def manifold_new : Manifold := (0 : Nat)

/-- A table entry: an identifier (nullable), a type tag, and a payload
that is a nested table, a manifold, or a string — the three payload
arms of the C `value` union that `table.c` ever reads. -/
inductive Entry where
  | etable (id : Option Id) (type : TType) (sub : List Entry)
  | emanifold (id : Option Id) (type : TType) (man : Manifold)
  | estring (id : Option Id) (type : TType) (str : String)
deriving Repr

def Entry.id : Entry → Option Id
  | .etable i _ _ => i
  | .emanifold i _ _ => i
  | .estring i _ _ => i

def Entry.type : Entry → TType
  | .etable _ t _ => t
  | .emanifold _ t _ => t
  | .estring _ t _ => t

/-- `e->value.table`, defined (as `[]`) on non-table payloads; the C
code only reads this field behind recursive-type guards. -/
def Entry.subTable : Entry → List Entry
  | .etable _ _ s => s
  | _ => []

/-- `e->value.string`, defined (as `""`) on non-string payloads. -/
def Entry.str : Entry → String
  | .estring _ _ s => s
  | _ => ""

/-- `e->value.manifold`, defined (as a fresh payload) off-arm. -/
def Entry.man : Entry → Manifold
  | .emanifold _ _ m => m
  | _ => manifold_new

/-- `entry_isolate` copies an entry and severs its `next` link; identity
on the carried data. -/
def entry_isolate (e : Entry) : Entry := e

/-- Macro `STCMP(e, i, t)` of table.c: the entry's id is non-NULL, the
probe id is non-NULL, the ids compare equal, and the type tags agree. -/
def STCMP (e : Entry) (i : Option Id) (τ : TType) : Bool :=
  match e.id, i with
  | some a, some b => id_cmp a b && e.type == τ
  | _, _ => false

/-- Macro `SCMP(e, i)` of table.c: both ids non-NULL and comparing
equal; no type test. -/
def SCMP (e : Entry) (i : Option Id) : Bool :=
  match e.id, i with
  | some a, some b => id_cmp a b
  | _, _ => false

/-- The anonymity test of `table_path_get`: `!(e->id && e->id->name)`. -/
def entry_anonymous (e : Entry) : Bool :=
  match e.id with
  | none => true
  | some a => a.name.isNone

/-- `is_recursive` of table.c (lines 178–182): exactly the three tags
`T_PATH`, `C_COMPOSON`, `C_NEST`. -/
def is_recursive (τ : TType) : Bool :=
  τ == .T_PATH || τ == .C_COMPOSON || τ == .C_NEST

/-- A lookup `Path`: an id segment plus an optional continuation, as in
the C struct read by `table_path_get` (`path->id`, `path->next`). -/
inductive Path where
  | mk (id : Option Id) (next : Option Path)
deriving Repr

def Path.id : Path → Option Id
  | .mk i _ => i

def Path.next : Path → Option Path
  | .mk _ n => n

/-- Modelled from the spec: `path_is_base` (declared in the missing
header) holds exactly at the final segment of a path. -/
def path_is_base (p : Path) : Bool :=
  p.next.isNone

/-- Result of an operation that may write diagnostics to stderr and may
abort the process: `ok` carries the value and the diagnostics emitted in
order; `fatal` models `exit(EXIT_FAILURE)`. -/
inductive Res (α : Type) where
  | ok (val : α) (diags : List String)
  | fatal (msg : String)
deriving Repr

/-- The value an operation returned, if it did not abort the process. -/
def Res.value {α : Type} : Res α → Option α
  | .ok v _ => some v
  | .fatal _ => none

/-- `table_join` of table.c: if `b` is nonempty, splice it after `a`
(or return `b` when `a` is empty); if `b` is empty return `a`
unchanged. -/
def table_join (a b : List Entry) : List Entry :=
  match b with
  | [] => a
  | _ =>
    match a with
    | [] => b
    | _ => a ++ b

theorem table_join_eq_append (a b : List Entry) : table_join a b = a ++ b := by
  cases b with
  | nil => simp [table_join]
  | cons x xs => cases a <;> simp [table_join]

/-! ## Lookup operations

The C lookups build their output table `out` by starting from NULL and
repeatedly calling `table_add(out, e)` (append of an isolated copy) and
`table_join(out, sub)` (splice).  On a table built this way the head and
tail pointers are always consistent, so `table_add` never takes its
warning branch and both operations are plain appends; the loops are
therefore modelled with an explicit `out` accumulator threaded through
the iteration, exactly mirroring the C control flow. -/

/-- The loop of `table_get` of table.c: scan the top level, appending
every `STCMP` match to `out`. -/
def table_get_loop : List Entry → Option Id → TType → List Entry → List Entry
  | [], _, _, out => out
  | e :: rest, i, τ, out =>
      table_get_loop rest i τ (if STCMP e i τ then out ++ [entry_isolate e] else out)

/-- `table_get` of table.c: top-level entries whose id and type both
match. -/
def table_get (t : List Entry) (i : Option Id) (τ : TType) : List Entry :=
  table_get_loop t i τ []

mutual

/-- The loop of `table_recursive_get` of table.c: append each `STCMP`
match, then, for a recursive-typed entry, splice in the recursive search
of its nested table. -/
def table_recursive_get_loop : List Entry → Option Id → TType → List Entry → List Entry
  | [], _, _, out => out
  | e :: rest, i, τ, out =>
      table_recursive_get_loop rest i τ
        (let out1 := if STCMP e i τ then out ++ [entry_isolate e] else out
         if is_recursive e.type then out1 ++ table_recursive_get_entry e i τ else out1)

/-- The recursive call `table_recursive_get(e->value.table, id, type)`;
reading the table arm of the payload by pattern. -/
def table_recursive_get_entry : Entry → Option Id → TType → List Entry
  | .etable _ _ s, i, τ => table_recursive_get_loop s i τ []
  | _, _, _ => []

end

/-- `table_recursive_get` of table.c. -/
def table_recursive_get (t : List Entry) (i : Option Id) (τ : TType) : List Entry :=
  table_recursive_get_loop t i τ []

mutual

/-- The loop of `table_path_get` of table.c.  At the base segment: exact
`STCMP` match plus a `table_recursive_get` of every recursive-typed
entry's nested table.  Before the base: descend into an entry only if it
is recursive-typed and anonymous or name-matching, continuing with the
rest of the path. -/
def table_path_get_loop : List Entry → Path → TType → List Entry → List Entry
  | [], _, _, out => out
  | e :: rest, p, τ, out =>
      table_path_get_loop rest p τ
        (if path_is_base p then
          (let out1 := if STCMP e p.id τ then out ++ [entry_isolate e] else out
           if is_recursive e.type then out1 ++ table_recursive_get_entry e p.id τ else out1)
         else
          (if is_recursive e.type && (entry_anonymous e || SCMP e p.id) then
            out ++ table_path_get_entry e p τ
           else out))

/-- The recursive call `table_path_get(e->value.table, path->next, type)`
of the non-base branch; the path is not at its base there, so
`path->next` is non-NULL. -/
def table_path_get_entry : Entry → Path → TType → List Entry
  | .etable _ _ s, p, τ =>
      match p.next with
      | some p2 => table_path_get_loop s p2 τ []
      | none => []
  | _, _, _ => []

end

/-- `table_path_get` of table.c (the `!table || !table->head` guard
returns NULL, which coincides with running the loop on `[]`). -/
def table_path_get (t : List Entry) (p : Path) (τ : TType) : List Entry :=
  table_path_get_loop t p τ []

/-- `table_selection_get` of table.c: union of path lookups in
selection order. -/
def table_selection_get (t : List Entry) (sel : List Path) (τ : TType) : List Entry :=
  match sel with
  | [] => []
  | p :: rest => table_join (table_path_get t p τ) (table_selection_get t rest τ)

/-! ## Size lemmas used for termination of the union-accessor recursions -/

theorem sizeOf_option_pos {α : Type} [SizeOf α] (o : Option α) : 0 < sizeOf o := by
  cases o <;> simp <;> omega

theorem Entry.sizeOf_subTable_lt (e : Entry) : sizeOf e.subTable < sizeOf e := by
  cases e with
  | etable i t s => simp [Entry.subTable]
  | emanifold i t m =>
    have h1 := sizeOf_option_pos i
    simp [Entry.subTable]
    omega
  | estring i t s =>
    have h1 := sizeOf_option_pos i
    simp [Entry.subTable]
    omega

theorem sizeOf_entry_lt_of_mem {e : Entry} {l : List Entry} (h : e ∈ l) :
    sizeOf e < sizeOf l := by
  induction l with
  | nil => cases h
  | cons a r ih =>
    rcases List.mem_cons.mp h with rfl | h2
    · simp
      omega
    · have := ih h2
      simp
      omega

theorem sizeOf_entry_head?_le (l : List Entry) : sizeOf l.head? ≤ sizeOf l := by
  cases l with
  | nil => simp
  | cons a r => simp [List.head?] <;> omega

theorem sizeOf_entry_getLast?_le (l : List Entry) : sizeOf l.getLast? ≤ sizeOf l := by
  cases h : l.getLast? with
  | none =>
    have h1 : (1 : Nat) ≤ sizeOf l := by cases l <;> simp <;> omega
    simp
    omega
  | some a =>
    have hm : a ∈ l := by
      rcases List.getLast?_eq_some_iff.mp h with ⟨l2, rfl⟩
      simp
    have := sizeOf_entry_lt_of_mem hm
    simp
    omega

/-! ## Construction and mutation -/

/-- The state of a C `Table` struct as `table_add` observes it: the
chain of entries reachable from `head`, plus whether the `tail` pointer
is NULL (`table_add` only ever tests `table->tail` for NULL-ness). -/
structure CTable where
  entries : List Entry
  tailNull : Bool

def taillessWarning : String := "WARNING: cannot add to tailless table"

/-- `table_add` of table.c: isolate the entry; a NULL table becomes a
fresh single-entry table; a table with a non-NULL tail gets the entry
spliced after its tail (`_retail`); a tailless table is left unchanged
after a warning is printed — the entry is dropped and execution
continues. -/
def table_add (t : Option CTable) (entry : Entry) : Res (Option CTable) :=
  let e := entry_isolate entry
  match t with
  | none => .ok (some ⟨[e], false⟩) []
  | some tb =>
    if tb.tailNull = false then
      .ok (some ⟨tb.entries ++ [e], false⟩) []
    else
      .ok (some tb) [taillessWarning]

def cloneErr : String := "ERROR: can't clone this; will only clone paths"

/-- `table_clone` of table.c: per entry, clone the id, keep the type,
and rebuild the payload — recursively cloned nested table for the four
table-holding types, a fresh empty manifold for `C_MANIFOLD`, a copied
string for `C_POSITIONAL`/`C_GRPREF`; any other type aborts the
process.  Entries are re-appended in order via `table_add`. -/
def table_clone : List Entry → Res (List Entry)
  | [] => Res.ok [] []
  | e :: rest =>
    let ec : Res Entry :=
      match Entry.type e with
      | .T_PATH | .C_COMPOSON | .C_NEST | .C_DEREF =>
        match table_clone (Entry.subTable e) with
        | .ok s2 d => .ok (Entry.etable (id_clone (Entry.id e)) (Entry.type e) s2) d
        | .fatal m => .fatal m
      | .C_MANIFOLD => .ok (Entry.emanifold (id_clone (Entry.id e)) (Entry.type e) manifold_new) []
      | .C_POSITIONAL | .C_GRPREF => .ok (Entry.estring (id_clone (Entry.id e)) (Entry.type e) (Entry.str e)) []
      | _ => .fatal cloneErr
    match ec with
    | .fatal m => .fatal m
    | .ok ecl d1 =>
      match table_clone rest with
      | .fatal m => .fatal m
      | .ok rcl d2 => .ok (ecl :: rcl) (d1 ++ d2)
  termination_by t => sizeOf t
  decreasing_by
    all_goals have := Entry.sizeOf_subTable_lt e
    all_goals simp_wf
    all_goals omega

/-! ## Composon input/output extraction -/

def composonErr : String :=
  "ERROR: input must be a composon in table_composon_{in/out}puts, returning NULL."

def grprefDiag : String := "Unresolved group reference"

def illegalCompositionDiag : String := "Illegal type in composition"

mutual

/-- `_table_composon_io` of table.c on a (possibly NULL) entry: NULL
yields NULL silently; a non-composon/non-nest entry yields NULL after an
error diagnostic; otherwise the entry's nested table is scanned. -/
def composon_io_entry (e? : Option Entry) (is_input : Bool) : List Entry × List String :=
  match e? with
  | none => ([], [])
  | some e =>
    if e.type == .C_COMPOSON || e.type == .C_NEST then
      composon_io_loop e.subTable is_input [] []
    else ([], [composonErr])
  termination_by sizeOf e?
  decreasing_by
    have := Entry.sizeOf_subTable_lt e
    simp_wf
    omega

/-- The scan loop of `_table_composon_io`: manifold/positional/deref
entries are appended to the result; path/nest entries contribute the
recursive extraction of the innermost (tail, for inputs) or outermost
(head, for outputs) entry of their nested table; a group reference adds
a diagnostic and nothing else; any other type adds an
illegal-composition diagnostic. -/
def composon_io_loop (l : List Entry) (is_input : Bool) (result : List Entry) (diags : List String) : List Entry × List String :=
  match l with
  | [] => (result, diags)
  | e :: rest =>
    match e.type with
    | .C_MANIFOLD | .C_POSITIONAL | .C_DEREF =>
        composon_io_loop rest is_input (result ++ [entry_isolate e]) diags
    | .T_PATH | .C_NEST =>
        let r := composon_io_entry
          (if is_input then e.subTable.getLast? else e.subTable.head?) is_input
        composon_io_loop rest is_input (table_join result r.1) (diags ++ r.2)
    | .C_GRPREF => composon_io_loop rest is_input result (diags ++ [grprefDiag])
    | _ => composon_io_loop rest is_input result (diags ++ [illegalCompositionDiag])
  termination_by sizeOf l
  decreasing_by
    all_goals
      try (have h1 : sizeOf (if is_input = true then e.subTable.getLast? else e.subTable.head?) ≤ sizeOf e.subTable := by
            by_cases hb : is_input = true
            · simpa [hb] using sizeOf_entry_getLast?_le e.subTable
            · simpa [hb] using sizeOf_entry_head?_le e.subTable
           have h2 := Entry.sizeOf_subTable_lt e)
    all_goals simp_wf
    all_goals try simp at h1 h2 ⊢
    all_goals omega

end

/-- `_table_composon_io` packaged as an operation result: the C function
never exits, it only prints diagnostics and returns its accumulated
table. -/
def table_composon_io (e? : Option Entry) (is_input : Bool) : Res (List Entry) :=
  let r := composon_io_entry e? is_input
  .ok r.1 r.2

/-- `table_composon_outputs` of table.c. -/
def table_composon_outputs (e? : Option Entry) : Res (List Entry) :=
  table_composon_io e? false

/-- `table_composon_inputs` of table.c. -/
def table_composon_inputs (e? : Option Entry) : Res (List Entry) :=
  table_composon_io e? true

/-! ## The W / Ws node model (ws_access.c)

A `W` carries a class tag and one of the payload shapes of §3 of the
design: a nested sequence (`Ws`), a couplet (lhs/rhs pair), a string, a
label, or an opaque manifold.  A `Ws` is modelled as `List W` (NULL and
empty coincide).  The accessors `g_lhs`/`g_rhs` return the couplet
branches (NULL — `none` — on a non-couplet payload, which the C code
never dereferences on the modelled paths). -/

/-- Modelled from the spec: a `Label` is a comparable name derived from
a couplet's left-hand side (`label_new_set(name, NULL)` sets the name
part). -/
structure Label where
  name : Option String
deriving DecidableEq, Repr

inductive W where
  | wws (cls : TType) (l : List W)
  | wcouplet (cls : TType) (lhs rhs : W)
  | wstr (cls : TType) (s : String)
  | wlabel (cls : TType) (lab : Label)
  | wman (cls : TType) (m : Manifold)
deriving Repr

def W.cls : W → TType
  | .wws c _ => c
  | .wcouplet c _ _ => c
  | .wstr c _ => c
  | .wlabel c _ => c
  | .wman c _ => c

/-- `g_ws(w)`: the nested sequence payload; a NULL / absent sequence is
the empty list. -/
def g_ws : W → List W
  | .wws _ l => l
  | _ => []

/-- `g_lhs(w)`: the left branch of a couplet payload. -/
def g_lhs : W → Option W
  | .wcouplet _ l _ => some l
  | _ => none

/-- `g_rhs(w)`: the right branch of a couplet payload. -/
def g_rhs : W → Option W
  | .wcouplet _ _ r => some r
  | _ => none

/-- `g_string(w)`: the string payload. -/
def g_string : W → Option String
  | .wstr _ s => some s
  | _ => none

/-- `g_label(w)`: the label payload. -/
def g_label : W → Option Label
  | .wlabel _ lab => some lab
  | _ => none

/-- `g_ws` lifted over a nullable node, for compositions such as
`g_ws(g_lhs(p))`. -/
def g_ws_opt : Option W → List W
  | some w => g_ws w
  | none => []

def ws_length (l : List W) : Nat := l.length

/-- `w_isolate`: private copy of a node, severing its `next` link;
identity on the carried value. -/
def w_isolate (w : W) : W := w

/-- `w_clone_value`: deep-copies the node's value in place so that a
following `s_lhs` does not mutate the original; identity on values. -/
def w_clone_value (w : W) : W := w

/-- `s_lhs(w, p)`: replace the left branch of a couplet payload. -/
def s_lhs (w : W) (p : W) : W :=
  match w with
  | .wcouplet c _ r => .wcouplet c p r
  | _ => w

/-- Modelled from the spec: `w_assert_type(p, V_COUPLET)` checks that
the node's class belongs to the couplet-payload partition of §3; the
payload shape carries exactly that information here. -/
def w_is_couplet : W → Bool
  | .wcouplet _ _ _ => true
  | _ => false

def invalidLhsDiag : String := "ERROR: invalid lhs type in couplet"

/-- `ws_split_couplet` of ws_access.c: a `K_LIST` left-hand side is
split into one couplet per alternative (each an isolated copy of the
couplet with that alternative as lhs); a singular lhs (`K_PATH`,
`K_LABEL`, `K_NAME`) passes the couplet through as the single result;
any other lhs class prints an error diagnostic and yields NULL —
execution continues. -/
def ws_split_couplet (c : W) : Res (List W) :=
  match g_lhs c with
  | none => .ok [] []
  | some paths =>
    match paths.cls with
    | .K_LIST =>
        .ok ((g_ws paths).map (fun p => s_lhs (w_clone_value (w_isolate c)) p)) []
    | .K_PATH | .K_LABEL | .K_NAME => .ok [c] []
    | _ => .ok [] [invalidLhsDiag]

def klistLabelDiag : String := "Recursion into K_LIST not supported"

def illegalLhsDiag : String := "Illegal left hand side"

/-- `_ws_get_label_from_lhs` of ws_access.c, with the diagnostics it
prints as second component: `K_NAME` wraps the string payload in a
fresh label; `K_LABEL` yields the label payload; `K_PATH` yields the
label of the head of its sequence (NULL for an empty sequence);
`K_LIST` and anything else yield NULL with a diagnostic. -/
def ws_get_label_from_lhs : Option W → Option Label × List String
  | none => (none, [])
  | some a =>
    match a.cls with
    | .K_NAME => (some ⟨g_string a⟩, [])
    | .K_LABEL => (g_label a, [])
    | .K_PATH =>
        (match g_ws a with
         | [] => (none, [])
         | h :: _ => (g_label h, []))
    | .K_LIST => (none, [klistLabelDiag])
    | _ => (none, [illegalLhsDiag])

/-- Modelled from the spec: `label_cmp` compares two (nullable) labels;
labels are comparable names, a NULL label compares unequal. -/
def label_cmp (a b : Option Label) : Bool :=
  match a, b with
  | some x, some y => x.name == y.name
  | _, _ => false

/-- `ws_cmp_lhs` of ws_access.c: compare the labels extracted from the
two nodes' left-hand sides (diagnostics of both extractions kept in
order). -/
def ws_cmp_lhs (a b : W) : Bool × List String :=
  let ra := ws_get_label_from_lhs (g_lhs a)
  let rb := ws_get_label_from_lhs (g_lhs b)
  (label_cmp ra.1 rb.1, ra.2 ++ rb.2)

/-- `ws_recurse_path` of ws_access.c: after asserting that `p` is a
couplet, a `C_NEST` node yields its body sequence; a `T_PATH` node
yields its right-hand sequence when `p`'s lhs has length 1 or (short
circuit) the lhs labels compare equal; every other class yields
nothing. -/
def ws_recurse_path (w p : W) : Res (List W) :=
  if w_is_couplet p = false then .fatal "w_assert_type: V_COUPLET expected"
  else
    match w.cls with
    | .C_NEST => .ok (g_ws w) []
    | .T_PATH =>
        if ws_length (g_ws_opt (g_lhs p)) == 1 then .ok (g_ws_opt (g_rhs w)) []
        else
          let c := ws_cmp_lhs w p
          if c.1 then .ok (g_ws_opt (g_rhs w)) c.2 else .ok [] c.2
    | _ => .ok [] []

/-! ## Declarative characterizations of the lookups

The `*Spec` definitions restate the spec's description of each lookup
as a direct recursion producing the result list in order; the theorems
below prove the accumulator loops of table.c equal to them. -/

theorem table_get_loop_eq (t : List Entry) (i : Option Id) (τ : TType) (out : List Entry) :
    table_get_loop t i τ out = out ++ t.filter (fun e => STCMP e i τ) := by
  induction t generalizing out with
  | nil => simp [table_get_loop]
  | cons e rest ih =>
    by_cases h : STCMP e i τ <;>
      simp [table_get_loop, h, ih, List.filter_cons, entry_isolate]

/-- `table_get` returns exactly the top-level `STCMP` matches, in
order. -/
theorem table_get_eq_filter (t : List Entry) (i : Option Id) (τ : TType) :
    table_get t i τ = t.filter (fun e => STCMP e i τ) := by
  simpa using table_get_loop_eq t i τ []

mutual

/-- The spec's description of `recursiveGet`: per entry, the exact match
(if any) followed by the matches inside the entry's nested table when
the entry is recursive-typed, then the continuation — pre-order. -/
def recursiveGetSpec : List Entry → Option Id → TType → List Entry
  | [], _, _ => []
  | e :: rest, i, τ =>
      ((if STCMP e i τ then [e] else []) ++
       (if is_recursive e.type then recursiveGetSpecEntry e i τ else [])) ++
      recursiveGetSpec rest i τ

def recursiveGetSpecEntry : Entry → Option Id → TType → List Entry
  | .etable _ _ s, i, τ => recursiveGetSpec s i τ
  | _, _, _ => []

end

mutual

theorem table_recursive_get_loop_eq : ∀ (t : List Entry) (i : Option Id) (τ : TType) (out : List Entry),
    table_recursive_get_loop t i τ out = out ++ recursiveGetSpec t i τ
  | [], i, τ, out => by simp [table_recursive_get_loop, recursiveGetSpec]
  | e :: rest, i, τ, out => by
    have ih : ∀ acc, table_recursive_get_loop rest i τ acc = acc ++ recursiveGetSpec rest i τ :=
      fun acc => table_recursive_get_loop_eq rest i τ acc
    have he := table_recursive_get_entry_eq e i τ
    by_cases hm : STCMP e i τ <;> by_cases hrec : is_recursive e.type <;>
      simp [table_recursive_get_loop, recursiveGetSpec, hm, hrec, ih, he, entry_isolate]

theorem table_recursive_get_entry_eq : ∀ (e : Entry) (i : Option Id) (τ : TType),
    table_recursive_get_entry e i τ = recursiveGetSpecEntry e i τ
  | .etable a t s, i, τ => by
      simpa [table_recursive_get_entry, recursiveGetSpecEntry] using
        table_recursive_get_loop_eq s i τ []
  | .emanifold a t m, i, τ => rfl
  | .estring a t s, i, τ => rfl

end

theorem table_recursive_get_eq_spec (t : List Entry) (i : Option Id) (τ : TType) :
    table_recursive_get t i τ = recursiveGetSpec t i τ := by
  simpa [table_recursive_get] using table_recursive_get_loop_eq t i τ []

mutual

/-- The spec's description of path-qualified lookup.  At the base
segment: the exact match plus a full `table_recursive_get` inside a
recursive-typed entry's nested table (an exact match does not preclude
the deeper search).  Before the base: descend — with the rest of the
path — exactly into recursive-typed entries that are anonymous or whose
id matches the current segment. -/
def pathGetSpec : List Entry → Path → TType → List Entry
  | [], _, _ => []
  | e :: rest, p, τ =>
      (if path_is_base p then
        (if STCMP e p.id τ then [e] else []) ++
        (if is_recursive e.type then table_recursive_get e.subTable p.id τ else [])
       else
        (if is_recursive e.type && (entry_anonymous e || SCMP e p.id) then
          pathGetSpecEntry e p τ
         else [])) ++
      pathGetSpec rest p τ

def pathGetSpecEntry : Entry → Path → TType → List Entry
  | .etable _ _ s, p, τ =>
      match p.next with
      | some p2 => pathGetSpec s p2 τ
      | none => []
  | _, _, _ => []

end

theorem table_recursive_get_entry_subTable (e : Entry) (i : Option Id) (τ : TType) :
    table_recursive_get_entry e i τ = table_recursive_get e.subTable i τ := by
  cases e <;> rfl

mutual

theorem table_path_get_loop_eq : ∀ (t : List Entry) (p : Path) (τ : TType) (out : List Entry),
    table_path_get_loop t p τ out = out ++ pathGetSpec t p τ
  | [], p, τ, out => by simp [table_path_get_loop, pathGetSpec]
  | e :: rest, p, τ, out => by
    have ih : ∀ acc, table_path_get_loop rest p τ acc = acc ++ pathGetSpec rest p τ :=
      fun acc => table_path_get_loop_eq rest p τ acc
    have he := table_path_get_entry_eq e p τ
    have hsub := table_recursive_get_entry_subTable e p.id τ
    by_cases hb : path_is_base p
    · by_cases hm : STCMP e p.id τ <;> by_cases hrec : is_recursive e.type <;>
        simp [table_path_get_loop, pathGetSpec, hb, hm, hrec, ih, hsub,
              table_recursive_get, table_recursive_get_loop_eq, entry_isolate]
    · by_cases hrec : is_recursive e.type && (entry_anonymous e || SCMP e p.id) <;>
        simp [table_path_get_loop, pathGetSpec, hb, hrec, ih, he]

theorem table_path_get_entry_eq : ∀ (e : Entry) (p : Path) (τ : TType),
    table_path_get_entry e p τ = pathGetSpecEntry e p τ
  | .etable a t s, p, τ => by
      cases hn : p.next with
      | some p2 =>
          simpa [table_path_get_entry, pathGetSpecEntry, hn] using
            table_path_get_loop_eq s p2 τ []
      | none => simp [table_path_get_entry, pathGetSpecEntry, hn]
  | .emanifold a t m, p, τ => rfl
  | .estring a t s, p, τ => rfl

end

theorem table_path_get_eq_spec (t : List Entry) (p : Path) (τ : TType) :
    table_path_get t p τ = pathGetSpec t p τ := by
  simpa [table_path_get] using table_path_get_loop_eq t p τ []

/-! ## Facts about what id-based lookups can return -/

theorem STCMP_none_right (e : Entry) (τ : TType) : STCMP e none τ = false := by
  unfold STCMP
  cases e.id <;> rfl

theorem Entry.id_ne_none_of_STCMP {e : Entry} {i : Option Id} {τ : TType}
    (h : STCMP e i τ = true) : e.id ≠ none := by
  unfold STCMP at h
  cases hi : e.id with
  | none => rw [hi] at h; cases i <;> simp at h
  | some a => simp [hi]

mutual

theorem stcmp_of_mem_recursiveGetSpec : ∀ (t : List Entry) (i : Option Id) (τ : TType) (x : Entry),
    x ∈ recursiveGetSpec t i τ → STCMP x i τ = true
  | [], i, τ, x => by simp [recursiveGetSpec]
  | e :: rest, i, τ, x => by
    have h1 := stcmp_of_mem_recursiveGetSpecEntry e i τ x
    have h2 := stcmp_of_mem_recursiveGetSpec rest i τ x
    intro hx
    by_cases hm : STCMP e i τ <;> by_cases hrec : is_recursive e.type <;>
      simp [recursiveGetSpec, hm, hrec] at hx <;>
      first
        | (rcases hx with rfl | hx'
           · exact hm
           · first
              | exact h1 hx'
              | (rcases hx' with hx2 | hx3
                 · exact h1 hx2
                 · exact h2 hx3))
        | (rcases hx with hx' | hx'
           · exact h1 hx'
           · exact h2 hx')
        | exact h2 hx
        | (rcases hx with rfl | hx'
           · exact hm
           · exact h2 hx')

theorem stcmp_of_mem_recursiveGetSpecEntry : ∀ (e : Entry) (i : Option Id) (τ : TType) (x : Entry),
    x ∈ recursiveGetSpecEntry e i τ → STCMP x i τ = true
  | .etable a t s, i, τ, x => by
    have h := stcmp_of_mem_recursiveGetSpec s i τ x
    simpa [recursiveGetSpecEntry] using h
  | .emanifold a t m, i, τ, x => by simp [recursiveGetSpecEntry]
  | .estring a t s, i, τ, x => by simp [recursiveGetSpecEntry]

end

theorem stcmp_of_mem_table_recursive_get {t : List Entry} {i : Option Id} {τ : TType} {x : Entry}
    (h : x ∈ table_recursive_get t i τ) : STCMP x i τ = true := by
  rw [table_recursive_get_eq_spec] at h
  exact stcmp_of_mem_recursiveGetSpec t i τ x h

theorem table_recursive_get_none (t : List Entry) (τ : TType) :
    table_recursive_get t none τ = [] := by
  rcases h : table_recursive_get t none τ with _ | ⟨x, xs⟩
  · rfl
  · exfalso
    have hx : x ∈ table_recursive_get t none τ := by rw [h]; exact List.mem_cons_self x xs
    have := stcmp_of_mem_table_recursive_get hx
    rw [STCMP_none_right] at this
    exact Bool.false_ne_true this

mutual

theorem id_ne_none_of_mem_pathGetSpec : ∀ (t : List Entry) (p : Path) (τ : TType) (x : Entry),
    x ∈ pathGetSpec t p τ → x.id ≠ none
  | [], p, τ, x => by simp [pathGetSpec]
  | e :: rest, p, τ, x => by
    have h2 := id_ne_none_of_mem_pathGetSpec rest p τ x
    have h3 := id_ne_none_of_mem_pathGetSpecEntry e p τ x
    intro hx
    by_cases hb : path_is_base p
    · by_cases hm : STCMP e p.id τ <;> by_cases hrec : is_recursive e.type <;>
        simp [pathGetSpec, hb, hm, hrec] at hx <;>
        first
          | (rcases hx with rfl | hx'
             · exact Entry.id_ne_none_of_STCMP hm
             · first
                | (rcases hx' with hx2 | hx3
                   · exact Entry.id_ne_none_of_STCMP (stcmp_of_mem_table_recursive_get hx2)
                   · exact h2 hx3)
                | exact h2 hx')
          | (rcases hx with hx' | hx'
             · exact Entry.id_ne_none_of_STCMP (stcmp_of_mem_table_recursive_get hx')
             · exact h2 hx')
          | exact h2 hx
    · by_cases hrec : is_recursive e.type && (entry_anonymous e || SCMP e p.id) <;>
        simp [pathGetSpec, hb, hrec] at hx <;>
        first
          | (rcases hx with hx' | hx'
             · exact h3 hx'
             · exact h2 hx')
          | exact h2 hx

theorem id_ne_none_of_mem_pathGetSpecEntry : ∀ (e : Entry) (p : Path) (τ : TType) (x : Entry),
    x ∈ pathGetSpecEntry e p τ → x.id ≠ none
  | .etable a t s, p, τ, x => by
    cases hn : p.next with
    | some p2 =>
      have h := id_ne_none_of_mem_pathGetSpec s p2 τ x
      simpa [pathGetSpecEntry, hn] using h
    | none => simp [pathGetSpecEntry, hn]
  | .emanifold a t m, p, τ, x => by simp [pathGetSpecEntry]
  | .estring a t s, p, τ, x => by simp [pathGetSpecEntry]

end

/-! ## Declarative characterization of composon input/output extraction -/

theorem sizeOf_list_entry_pos (l : List Entry) : 0 < sizeOf l := by
  cases l <;> simp <;> omega

mutual

/-- The spec's description of the scan over a composon/nest body:
manifold, positional and deref entries contribute themselves; path and
nest entries contribute the extraction of the innermost (tail, for
inputs) or outermost (head, for outputs) entry of their nested table;
group references contribute only a diagnostic; any other type only an
illegal-composition diagnostic.  Results and diagnostics in scan
order. -/
def composonIoSpec : List Entry → Bool → List Entry × List String
  | [], _ => ([], [])
  | e :: rest, is_input =>
    let hd : List Entry × List String :=
      match e.type with
      | .C_MANIFOLD | .C_POSITIONAL | .C_DEREF => ([e], [])
      | .T_PATH | .C_NEST =>
          composonIoSpecEntry
            (if is_input then e.subTable.getLast? else e.subTable.head?) is_input
      | .C_GRPREF => ([], [grprefDiag])
      | _ => ([], [illegalCompositionDiag])
    let tl := composonIoSpec rest is_input
    (hd.1 ++ tl.1, hd.2 ++ tl.2)
  termination_by l _ => sizeOf l
  decreasing_by
    all_goals
      try (have h1 : sizeOf (if is_input = true then e.subTable.getLast? else e.subTable.head?) ≤ sizeOf e.subTable := by
            by_cases hb : is_input = true
            · simpa [hb] using sizeOf_entry_getLast?_le e.subTable
            · simpa [hb] using sizeOf_entry_head?_le e.subTable
           have h2 := Entry.sizeOf_subTable_lt e)
    all_goals simp_wf
    all_goals try simp at h1 h2 ⊢
    all_goals omega

/-- The extraction on a (possibly absent) entry: a composon/nest entry
is scanned; anything else yields only the composon error diagnostic. -/
def composonIoSpecEntry : Option Entry → Bool → List Entry × List String
  | none, _ => ([], [])
  | some e, is_input =>
    if e.type == .C_COMPOSON || e.type == .C_NEST then
      composonIoSpec e.subTable is_input
    else ([], [composonErr])
  termination_by e? _ => sizeOf e?
  decreasing_by
    have := Entry.sizeOf_subTable_lt e
    simp_wf
    omega

end

theorem composon_io_eq_aux : ∀ (n : Nat),
    (∀ (e? : Option Entry), sizeOf e? ≤ n → ∀ (b : Bool),
        composon_io_entry e? b = composonIoSpecEntry e? b) ∧
    (∀ (l : List Entry), sizeOf l ≤ n → ∀ (b : Bool) (res : List Entry) (ds : List String),
        composon_io_loop l b res ds =
          (res ++ (composonIoSpec l b).1, ds ++ (composonIoSpec l b).2)) := by
  intro n
  induction n with
  | zero =>
    constructor
    · intro e? hs
      have := sizeOf_option_pos e?
      omega
    · intro l hs
      have := sizeOf_list_entry_pos l
      omega
  | succ n ih =>
    obtain ⟨ihe, ihl⟩ := ih
    constructor
    · intro e? hs b
      cases e? with
      | none => simp [composon_io_entry, composonIoSpecEntry]
      | some e =>
        have hsub : sizeOf (Entry.subTable e) ≤ n := by
          have h1 := Entry.sizeOf_subTable_lt e
          simp at hs
          omega
        by_cases ht : (e.type == TType.C_COMPOSON || e.type == TType.C_NEST) = true
        · simp [composon_io_entry, composonIoSpecEntry, ht, ihl (Entry.subTable e) hsub b [] []]
        · simp [composon_io_entry, composonIoSpecEntry, ht]
    · intro l hs b res ds
      cases l with
      | nil => simp [composon_io_loop, composonIoSpec]
      | cons e rest =>
        have hrest : sizeOf rest ≤ n := by
          simp at hs
          omega
        have hpick : sizeOf (if b = true then (Entry.subTable e).getLast? else (Entry.subTable e).head?) ≤ n := by
          have h1 : sizeOf (if b = true then (Entry.subTable e).getLast? else (Entry.subTable e).head?) ≤ sizeOf (Entry.subTable e) := by
            by_cases hb : b = true
            · simpa [hb] using sizeOf_entry_getLast?_le (Entry.subTable e)
            · simpa [hb] using sizeOf_entry_head?_le (Entry.subTable e)
          have h2 := Entry.sizeOf_subTable_lt e
          simp at hs
          omega
        cases he : Entry.type e <;>
          simp [composon_io_loop, composonIoSpec, he, entry_isolate, table_join_eq_append,
                ihl rest hrest, ihe _ hpick, List.append_assoc]

/-- The composon extraction loop equals the declarative scan, with the
accumulators factored out. -/
theorem composon_io_entry_eq (e? : Option Entry) (b : Bool) :
    composon_io_entry e? b = composonIoSpecEntry e? b :=
  (composon_io_eq_aux (sizeOf e?)).1 e? (Nat.le_refl _) b

/-! ## Well-formed, manifold-free tables and cloning -/

mutual

/-- The construction invariant of §3: the four table-holding types
(`T_PATH`, `C_COMPOSON`, `C_NEST`, `C_DEREF`) carry a nested table;
`C_MANIFOLD` carries a manifold; `C_POSITIONAL`/`C_GRPREF` carry a
string. -/
def entry_wf : Entry → Bool
  | .etable _ t s =>
      (t == .T_PATH || t == .C_COMPOSON || t == .C_NEST || t == .C_DEREF) && table_wf s
  | .emanifold _ t _ => t == .C_MANIFOLD
  | .estring _ t _ => t == .C_POSITIONAL || t == .C_GRPREF

def table_wf : List Entry → Bool
  | [] => true
  | e :: rest => entry_wf e && table_wf rest

end

mutual

/-- No entry of the table, at any depth, is a manifold entry. -/
def entry_manifold_free : Entry → Bool
  | .etable _ _ s => table_manifold_free s
  | .emanifold _ _ _ => false
  | .estring _ _ _ => true

def table_manifold_free : List Entry → Bool
  | [] => true
  | e :: rest => entry_manifold_free e && table_manifold_free rest

end

theorem table_clone_id_aux : ∀ (n : Nat) (t : List Entry), sizeOf t ≤ n →
    table_wf t = true → table_manifold_free t = true → table_clone t = .ok t [] := by
  intro n
  induction n with
  | zero =>
    intro t hs
    have := sizeOf_list_entry_pos t
    omega
  | succ n ih =>
    intro t hs hwf hmf
    cases t with
    | nil => simp [table_clone]
    | cons e rest =>
      simp [table_wf, table_manifold_free] at hwf hmf
      have hrest : table_clone rest = .ok rest [] := by
        apply ih rest ?_ hwf.2 hmf.2
        simp at hs
        omega
      cases e with
      | etable i ty s =>
        simp [entry_wf] at hwf
        simp [entry_manifold_free] at hmf
        have hsub : table_clone s = .ok s [] := by
          apply ih s ?_ hwf.1.2 hmf.1
          simp at hs
          omega
        rcases hwf.1.1 with ((hty | hty) | hty) | hty <;>
          (subst hty
           simp [table_clone, Entry.type, Entry.subTable, Entry.id, id_clone, hsub, hrest])
      | emanifold i ty m =>
        simp [entry_manifold_free] at hmf
      | estring i ty s =>
        simp [entry_wf] at hwf
        rcases hwf.1 with hty | hty <;>
          (subst hty
           simp [table_clone, Entry.type, Entry.str, Entry.id, id_clone, hrest])

/-- On a well-formed table free of manifold entries, `table_clone` is
the identity on the flattened structure (and aborts nowhere). -/
theorem table_clone_id (t : List Entry)
    (hwf : table_wf t = true) (hmf : table_manifold_free t = true) :
    table_clone t = .ok t [] :=
  table_clone_id_aux (sizeOf t) t (Nat.le_refl _) hwf hmf

/-! ## Sample values used by witnesses and counterexamples -/

def idX : Id := ⟨some "x"⟩

def idY : Id := ⟨some "y"⟩

def innerX : Entry := .emanifold (some idX) .C_MANIFOLD manifold_new

def derefOuter : Entry := .etable none .C_DEREF [innerX]

def manifoldEntryX : Entry := .emanifold (some ⟨some "m"⟩) .C_MANIFOLD manifold_new

def grprefEntry : Entry := .estring (some ⟨some "g"⟩) .C_GRPREF "grp"

def composonSample : Entry := .etable none .C_COMPOSON [manifoldEntryX, grprefEntry]

def posEntryY : Entry := .estring (some idY) .C_POSITIONAL "1"

def samplePathTable : List Entry := [.etable (some ⟨some "a"⟩) .T_PATH [posEntryY]]

def sampleManifold : Manifold := (3 : Nat)

def badLhs : W := .wstr .C_POSITIONAL "p"

def rhsBody : W := .wws .C_NEST []

def badCouplet : W := .wcouplet .T_PATH badLhs rhsBody

def goodCouplet : W := .wcouplet .T_PATH (.wlabel .K_LABEL ⟨some "n"⟩) rhsBody

def nestW : W := .wws .C_NEST [badLhs]

def coupletP : W := .wcouplet .T_PATH (.wws .K_PATH [.wlabel .K_LABEL ⟨some "a"⟩]) rhsBody

/-! ## The claims -/

/-- C1: `table_path_get` at the base segment behaves like exact lookup
for the base segment and additionally performs a full recursive-by-id
search inside each recursive-typed entry at that level (an exact match
does not preclude deeper matches); before the base it descends into an
entry exactly when the entry is recursive-typed and anonymous or
id-matching, continuing with the rest of the path inside that entry's
nested table. -/
theorem claim1_path_get (t : List Entry) (p : Path) (τ : TType) :
    table_path_get t p τ = pathGetSpec t p τ :=
  table_path_get_eq_spec t p τ

/-- C2 counterexample: `is_recursive` excludes `C_DEREF`, so
`table_recursive_get` does not descend into a deref entry's nested
table — an id-and-type match sitting inside a deref entry is not
returned, contradicting the claim's four recursive types. -/
theorem claim2_counterexample :
    STCMP innerX (some idX) .C_MANIFOLD = true ∧
    Entry.type derefOuter = .C_DEREF ∧
    Entry.subTable derefOuter = [innerX] ∧
    table_recursive_get [derefOuter] (some idX) .C_MANIFOLD = [] :=
  ⟨rfl, rfl, rfl, rfl⟩

/-- C2 as amended: `table_recursive_get` returns, in pre-order, every
entry of the subtree whose id and type both match, descending into the
nested table of every entry whose type is one of the three
`is_recursive` types — path, composon, nest — and not into deref
entries. -/
theorem claim2_amended (t : List Entry) (i : Option Id) (τ : TType) :
    table_recursive_get t i τ = recursiveGetSpec t i τ :=
  table_recursive_get_eq_spec t i τ

/-- C3 counterexample: calling the composon extraction on a manifold
entry returns normally — NULL result together with the error
diagnostic — rather than terminating the process. -/
theorem claim3_counterexample :
    table_composon_inputs (some manifoldEntryX) = .ok [] [composonErr] := by
  simp [table_composon_inputs, table_composon_io, composon_io_entry,
        manifoldEntryX, Entry.type]

/-- C3 as amended: composon input/output extraction on an entry that is
neither a composon nor a nest prints an error diagnostic and returns
NULL; execution continues (the result is an `ok`, never a `fatal`). -/
theorem claim3_amended (e : Entry) (b : Bool)
    (h1 : e.type ≠ .C_COMPOSON) (h2 : e.type ≠ .C_NEST) :
    table_composon_io (some e) b = .ok [] [composonErr] := by
  have ht : (e.type == TType.C_COMPOSON || e.type == TType.C_NEST) = false := by
    simp [h1, h2]
  simp [table_composon_io, composon_io_entry, ht]

theorem claim3_witness :
    table_composon_io (some manifoldEntryX) true = .ok [] [composonErr] :=
  claim3_amended manifoldEntryX true (by decide) (by decide)

/-- C4: on a composon/nest entry the extraction scans the nested table:
manifold, positional and deref entries are added directly; path and
nest entries contribute recursively from the innermost (tail) entry for
inputs and the outermost (head) entry for outputs; a group reference
contributes only a diagnostic, without aborting. -/
theorem claim4_composon_io (e : Entry) (b : Bool)
    (h : e.type = .C_COMPOSON ∨ e.type = .C_NEST) :
    table_composon_io (some e) b =
      .ok (composonIoSpec e.subTable b).1 (composonIoSpec e.subTable b).2 := by
  have ht : (e.type == TType.C_COMPOSON || e.type == TType.C_NEST) = true := by
    rcases h with h | h <;> simp [h]
  rw [table_composon_io, composon_io_entry_eq]
  simp [composonIoSpecEntry, ht]

theorem claim4_witness :
    table_composon_io (some composonSample) true = .ok [manifoldEntryX] [grprefDiag] := by
  have h := claim4_composon_io composonSample true (Or.inl rfl)
  rw [h]
  simp [composonSample, Entry.subTable, composonIoSpec, manifoldEntryX, grprefEntry, Entry.type]

/-- C5: `table_join` has empty tables as identities (returning the
other operand, in particular `b` when `a` is empty) and is associative
on the flattened entry sequence. -/
theorem claim5_join (a b c : List Entry) :
    table_join a [] = a ∧
    table_join [] b = b ∧
    table_join (table_join a b) c = table_join a (table_join b c) := by
  refine ⟨?_, ?_, ?_⟩ <;> simp [table_join_eq_append, List.append_assoc]

/-- C6: on a well-formed table without manifold entries `table_clone`
reproduces the flattened entry sequence exactly (same ids, types and
terminal payloads, no abort, no diagnostics); a manifold entry is
cloned with a fresh empty manifold payload regardless of its state. -/
theorem claim6_clone (t : List Entry) (i : Option Id) (m : Manifold)
    (hwf : table_wf t = true) (hmf : table_manifold_free t = true) :
    table_clone t = .ok t [] ∧
    table_clone [Entry.emanifold i .C_MANIFOLD m] =
      .ok [Entry.emanifold i .C_MANIFOLD manifold_new] [] := by
  refine ⟨table_clone_id t hwf hmf, ?_⟩
  simp [table_clone, Entry.type, Entry.id, id_clone]

theorem claim6_witness :
    table_clone samplePathTable = .ok samplePathTable [] ∧
    table_clone [Entry.emanifold (some ⟨some "m"⟩) .C_MANIFOLD sampleManifold] =
      .ok [Entry.emanifold (some ⟨some "m"⟩) .C_MANIFOLD manifold_new] [] :=
  claim6_clone samplePathTable (some ⟨some "m"⟩) sampleManifold (by decide) (by decide)

/-- C7 counterexample: a couplet whose lhs is neither a list nor a
qualified path, label or name makes `ws_split_couplet` print an error
diagnostic and return NULL — a normal return, not a process-terminating
error. -/
theorem claim7_counterexample :
    ws_split_couplet badCouplet = .ok [] [invalidLhsDiag] := rfl

/-- C7 as amended: a couplet whose lhs is already singular (qualified
path, label, or name) passes through unchanged as the single result;
any other non-list lhs shape is reported as an error diagnostic and
yields an empty result, with execution continuing. -/
theorem claim7_amended (c lhs : W) (h : g_lhs c = some lhs) :
    (lhs.cls = .K_PATH ∨ lhs.cls = .K_LABEL ∨ lhs.cls = .K_NAME →
        ws_split_couplet c = .ok [c] []) ∧
    (lhs.cls ≠ .K_LIST → lhs.cls ≠ .K_PATH → lhs.cls ≠ .K_LABEL → lhs.cls ≠ .K_NAME →
        ws_split_couplet c = .ok [] [invalidLhsDiag]) := by
  constructor
  · intro hcls
    rcases hcls with h1 | h1 | h1 <;> simp [ws_split_couplet, h, h1]
  · intro h1 h2 h3 h4
    cases hc : lhs.cls <;> simp_all [ws_split_couplet, h]

theorem claim7_witness :
    ws_split_couplet goodCouplet = .ok [goodCouplet] [] ∧
    ws_split_couplet badCouplet = .ok [] [invalidLhsDiag] :=
  ⟨(claim7_amended goodCouplet (.wlabel .K_LABEL ⟨some "n"⟩) rfl).1 (Or.inr (Or.inl rfl)),
   (claim7_amended badCouplet badLhs rfl).2 (by decide) (by decide) (by decide) (by decide)⟩

/-- C8: `table_add` on a table that has a head but no tail logs a
warning, drops the entry and returns the table unchanged — a
recoverable diagnostic (`ok`), not a process-terminating error. -/
theorem claim8_tailless_add (tb : CTable) (e : Entry)
    (hhead : tb.entries ≠ []) (htail : tb.tailNull = true) :
    table_add (some tb) e = .ok (some tb) [taillessWarning] := by
  simp [table_add, htail]

theorem claim8_witness :
    table_add (some ⟨[posEntryY], true⟩) manifoldEntryX =
      .ok (some ⟨[posEntryY], true⟩) [taillessWarning] :=
  claim8_tailless_add ⟨[posEntryY], true⟩ manifoldEntryX (by simp) rfl

/-- C9: `ws_recurse_path` on a nest node returns the nest's body
sequence unconditionally; on a qualified-path node it returns the
right-hand remainder sequence exactly when the couplet's lhs has length
1 or the lhs labels compare equal, and otherwise yields nothing; on
every other node kind it yields nothing. -/
theorem claim9_recurse_path (w p : W) (hp : w_is_couplet p = true) :
    (w.cls = .C_NEST → (ws_recurse_path w p).value = some (g_ws w)) ∧
    (w.cls = .T_PATH →
        (ws_recurse_path w p).value =
          some (if ws_length (g_ws_opt (g_lhs p)) = 1 ∨ (ws_cmp_lhs w p).1 = true
                then g_ws_opt (g_rhs w) else [])) ∧
    (w.cls ≠ .C_NEST → w.cls ≠ .T_PATH → (ws_recurse_path w p).value = some []) := by
  refine ⟨?_, ?_, ?_⟩
  · intro h
    simp [ws_recurse_path, hp, h, Res.value]
  · intro h
    by_cases h1 : ws_length (g_ws_opt (g_lhs p)) = 1
    · simp [ws_recurse_path, hp, h, h1, Res.value]
    · by_cases h2 : (ws_cmp_lhs w p).1 = true <;>
        simp [ws_recurse_path, hp, h, h1, h2, Res.value]
  · intro h1 h2
    cases hc : w.cls <;> simp_all [ws_recurse_path, hp, Res.value]

theorem claim9_witness :
    (ws_recurse_path nestW coupletP).value = some [badLhs] :=
  (claim9_recurse_path nestW coupletP rfl).1 rfl

/-- C10: lookups with a NULL probe id return the empty table, and no
entry whose own id is NULL is ever returned by `table_get`,
`table_recursive_get`, or `table_path_get` (anonymous entries are
invisible to id-based lookup). -/
theorem claim10_null_ids (t : List Entry) (i : Option Id) (τ : TType) (p : Path) :
    table_get t none τ = [] ∧
    table_recursive_get t none τ = [] ∧
    (∀ x, x ∈ table_get t i τ → x.id ≠ none) ∧
    (∀ x, x ∈ table_recursive_get t i τ → x.id ≠ none) ∧
    (∀ x, x ∈ table_path_get t p τ → x.id ≠ none) := by
  refine ⟨?_, table_recursive_get_none t τ, ?_, ?_, ?_⟩
  · rw [table_get_eq_filter]
    simp [STCMP_none_right]
  · intro x hx
    rw [table_get_eq_filter] at hx
    exact Entry.id_ne_none_of_STCMP ((List.mem_filter.mp hx).2)
  · intro x hx
    exact Entry.id_ne_none_of_STCMP (stcmp_of_mem_table_recursive_get hx)
  · intro x hx
    rw [table_path_get_eq_spec] at hx
    exact id_ne_none_of_mem_pathGetSpec t p τ x hx

theorem claim10_witness :
    table_get [posEntryY] none .C_POSITIONAL = [] ∧ Entry.id posEntryY ≠ none :=
  ⟨(claim10_null_ids [posEntryY] (some idY) .C_POSITIONAL (Path.mk none none)).1,
   (claim10_null_ids [posEntryY] (some idY) .C_POSITIONAL (Path.mk none none)).2.2.1
     posEntryY (List.mem_singleton.mpr rfl)⟩

end Morloc
